import Mathlib

/-!
Buffered file input stream and directory tree scan.

Shallow embedding of two pieces of the repository:

* `src/lib/io/src/win32/istream.c`: the buffered input stream over a Win32
  handle (`precache`, `file_get_buffered_data`, `file_advance_buffer`);
* `src/bin/gensquashfs/src/fstree_from_dir.c`: the loop that feeds the
  entries of a directory iterator into the filesystem tree.

Machine integers are natural numbers with the wrap-around of the C type
written out (`size_t` is 64 bit, `DWORD` is 32 bit).  `ReadFile`, the
directory iterator and `fstree_add_generic` are not part of these source
files; they are parameters of the embedding.
-/

namespace IStream

/-- One byte of stream data. Only the identity of bytes matters here. -/
abbrev sqfs_u8 := Nat

/-- Number of values of a `size_t` (64 bit). -/
def SIZE_MOD : Nat := 18446744073709551616

/-- Number of values of a `DWORD` (32 bit). -/
def DWORD_MOD : Nat := 4294967296

/-- Win32 error code `ERROR_HANDLE_EOF`. -/
def ERROR_HANDLE_EOF : Nat := 38

/-- Win32 error code `ERROR_BROKEN_PIPE`. -/
def ERROR_BROKEN_PIPE : Nat := 109

/-- Outcome of one `ReadFile` call: `ok data` is a `TRUE` return that stored
`data` at the destination (`actual = data.length`), `fail error` is a `FALSE`
return with `GetLastError() = error`. -/
inductive ReadResult where
  | ok (data : List sqfs_u8)
  | fail (error : Nat)
  deriving DecidableEq, Repr

/-- What the embedding takes from outside `istream.c`: the buffer size macro
`BUFSZ`, the error constant `SQFS_ERROR_IO` and the behaviour of `ReadFile`
on the operating system state `σ` (second argument: number of bytes
requested). -/
structure Env (σ : Type) where
  BUFSZ : Nat
  SQFS_ERROR_IO : Int
  ReadFile : σ → Nat → ReadResult × σ

/-- The field `HANDLE hnd`: the operating system state behind the handle,
together with the history of all `ReadFile` outcomes on it. -/
structure Handle (σ : Type) where
  os : σ
  log : List ReadResult

/-- The struct `file_istream_t` (without `base` and `path`). -/
structure file_istream_t (σ : Type) where
  hnd : Handle σ
  eof : Bool
  buffer_offset : Nat
  buffer_used : Nat
  buffer : List sqfs_u8

/-- The call `ReadFile(file->hnd, ..., diff, &actual, NULL)`, recording its
outcome in the history of the handle. -/
def Handle.read {σ : Type} (env : Env σ) (h : Handle σ) (diff : Nat) :
    ReadResult × Handle σ :=
  let r := env.ReadFile h.os diff
  (r.1, { os := r.2, log := h.log ++ [r.1] })

/-- The call `memmove(buffer, buffer + src, n)`. -/
def memmove_front (buffer : List sqfs_u8) (src n : Nat) : List sqfs_u8 :=
  (buffer.drop src).take n ++ buffer.drop n

/-- Bytes stored by `ReadFile` at `buffer + pos`. -/
def store (buffer : List sqfs_u8) (pos : Nat) (data : List sqfs_u8) : List sqfs_u8 :=
  buffer.take pos ++ data ++ buffer.drop (pos + data.length)

/-- Subtraction of two `size_t` values. -/
def size_sub (a b : Nat) : Nat := (a + SIZE_MOD - b) % SIZE_MOD

/-- Addition of two `size_t` values. -/
def size_add (a b : Nat) : Nat := (a + b) % SIZE_MOD

/-- The `while` loop of `precache`. Every iteration takes one unit of fuel;
`none` means the fuel ran out before the loop left. -/
def precache_loop {σ : Type} (env : Env σ) :
    Nat → file_istream_t σ → Option (Int × file_istream_t σ)
  | 0, _ => none
  | fuel + 1, file =>
    if file.buffer_used < env.BUFSZ then
      let diff := (env.BUFSZ - file.buffer_used) % DWORD_MOD
      match Handle.read env file.hnd diff with
      | (ReadResult.fail error, hnd) =>
        if error = ERROR_HANDLE_EOF ∨ error = ERROR_BROKEN_PIPE then
          some (0, { file with hnd := hnd, eof := true })
        else
          some ( Env.SQFS_ERROR_IO env, { file with hnd := hnd })
      | (ReadResult.ok data, hnd) =>
        let file1 := { file with hnd := hnd, buffer := store file.buffer file.buffer_used data }
        if data.length = 0 then
          some (0, { file1 with eof := true })
        else
          precache_loop env fuel
            { file1 with buffer_used := size_add file1.buffer_used data.length }
    else
      some (0, file)

/-- The function `precache`. The loop is given `BUFSZ - buffer_used + 1` units of
fuel. -/
def precache {σ : Type} (env : Env σ) (file : file_istream_t σ) :
    Option (Int × file_istream_t σ) :=
  if file.eof then
    some (0, file)
  else
    let file1 :=
      if 0 < file.buffer_offset ∧ file.buffer_offset < file.buffer_used then
        { file with buffer := memmove_front file.buffer file.buffer_offset
                                (size_sub file.buffer_used file.buffer_offset) }
      else file
    let file2 := { file1 with buffer_used := size_sub file1.buffer_used file1.buffer_offset }
    let file3 := { file2 with buffer_offset := 0 }
    precache_loop env (env.BUFSZ - file3.buffer_used + 1) file3

/-- Return value and out-parameters of `file_get_buffered_data`. `out` is the
index into `buffer` the returned pointer refers to; `none` means the
out-parameter was not written. -/
structure GetResult where
  ret : Int
  out : Option Nat
  size : Option Nat
  deriving DecidableEq, Repr

/-- The last three lines of `file_get_buffered_data`. -/
def get_tail {σ : Type} (file : file_istream_t σ) : GetResult :=
  let size := size_sub file.buffer_used file.buffer_offset
  { ret := if file.eof = true ∧ size = 0 then 1 else 0,
    out := some file.buffer_offset,
    size := some size }

/-- The function `file_get_buffered_data`. -/
def file_get_buffered_data {σ : Type} (env : Env σ) (file : file_istream_t σ) (want : Nat) :
    Option (GetResult × file_istream_t σ) :=
  let want1 := if want > env.BUFSZ then env.BUFSZ else want
  if file.buffer_used = 0 ∨ size_sub file.buffer_used file.buffer_offset < want1 then
    match precache env file with
    | none => none
    | some (ret, file1) =>
      if ret ≠ 0 then
        some ({ ret := ret, out := none, size := none }, file1)
      else
        some (get_tail file1, file1)
  else
    some (get_tail file, file)

/-- Which `assert` of `file_advance_buffer` failed. -/
inductive AssertionFailure where
  | count_le_buffer_used
  | buffer_offset_le_buffer_used
  deriving DecidableEq, Repr

/-- The function `file_advance_buffer`, with its assertions active. -/
def file_advance_buffer {σ : Type} (file : file_istream_t σ) (count : Nat) :
    Except AssertionFailure (file_istream_t σ) :=
  if count ≤ file.buffer_used then
    let file1 := { file with buffer_offset := size_add file.buffer_offset count }
    if file1.buffer_offset ≤ file1.buffer_used then
      Except.ok file1
    else
      Except.error AssertionFailure.buffer_offset_le_buffer_used
  else
    Except.error AssertionFailure.count_le_buffer_used

/-- The stream object right after `istream_open_handle`: `calloc` zeroes every
field. -/
def istream_open_handle {σ : Type} (env : Env σ) (os : σ) : file_istream_t σ :=
  { hnd := { os := os, log := [] },
    eof := false,
    buffer_offset := 0,
    buffer_used := 0,
    buffer := List.replicate env.BUFSZ 0 }

/-- The bytes the caller sees through the pointer and length returned by
`file_get_buffered_data`: `buffer[buffer_offset .. buffer_used)`. -/
def window {σ : Type} (file : file_istream_t σ) : List sqfs_u8 :=
  (file.buffer.drop file.buffer_offset).take (file.buffer_used - file.buffer_offset)

/-- The bytes a view `(out, size)` into the buffer refers to. -/
def view_bytes {σ : Type} (file : file_istream_t σ) (out size : Nat) : List sqfs_u8 :=
  (file.buffer.drop out).take size

/-- All bytes delivered by the `ReadFile` calls of a history, in call order. -/
def delivered : List ReadResult → List sqfs_u8
  | [] => []
  | ReadResult.ok data :: rest => data ++ delivered rest
  | ReadResult.fail _ :: rest => delivered rest

/-- The buffer invariant `buffer_offset <= buffer_used <= BUFSZ`, for a buffer of
`BUFSZ` bytes. -/
def Inv {σ : Type} (env : Env σ) (file : file_istream_t σ) : Prop :=
  file.buffer_offset ≤ file.buffer_used ∧ file.buffer_used ≤ env.BUFSZ ∧
    file.buffer.length = env.BUFSZ

/-- `ReadFile` never reports more bytes than were requested. -/
def ReadBounded {σ : Type} (env : Env σ) : Prop :=
  ∀ (s : σ) (diff : Nat) (data : List sqfs_u8) (s1 : σ),
    env.ReadFile s diff = (ReadResult.ok data, s1) → data.length ≤ diff

/-- An outcome of `ReadFile` that `precache` turns into end-of-stream. -/
def EndsStream : ReadResult → Prop
  | ReadResult.ok data => data = []
  | ReadResult.fail error => error = ERROR_HANDLE_EOF ∨ error = ERROR_BROKEN_PIPE

/-- An outcome of `ReadFile` that `precache` reports as an error. -/
def IsReadError : ReadResult → Prop
  | ReadResult.ok _ => False
  | ReadResult.fail error => error ≠ ERROR_HANDLE_EOF ∧ error ≠ ERROR_BROKEN_PIPE

/-- An outcome of `ReadFile` after which the loop of `precache` goes on. -/
def Continues : ReadResult → Prop
  | ReadResult.ok data => data ≠ []
  | ReadResult.fail _ => False

/-- The three ways the loop of `precache` leaves, in terms of the outcomes `new`
of the `ReadFile` calls it made: the buffer is full, the last call ended the
stream, or the last call was a read error. `eof0` is the flag before the loop. -/
def LoopExit {σ : Type} (env : Env σ) (eof0 : Bool) (r : Int) (g : file_istream_t σ)
    (new : List ReadResult) : Prop :=
  (r = 0 ∧ g.eof = eof0 ∧ g.buffer_used = env.BUFSZ ∧ ∀ x ∈ new, Continues x) ∨
  (r = 0 ∧ g.eof = true ∧
    ∃ pre x, new = pre ++ [x] ∧ EndsStream x ∧ ∀ y ∈ pre, Continues y) ∨
  (r = Env.SQFS_ERROR_IO env ∧ g.eof = eof0 ∧
    ∃ pre x, new = pre ++ [x] ∧ IsReadError x ∧ ∀ y ∈ pre, Continues y)

/-- What the loop of `precache`, started in `f`, has done when it leaves with
return value `r` in state `g`: the offset is untouched and the filled part of
the buffer grew by exactly the bytes delivered. -/
def LoopPost {σ : Type} (env : Env σ) (f : file_istream_t σ) (r : Int)
    (g : file_istream_t σ) : Prop :=
  g.buffer_offset = f.buffer_offset ∧ f.buffer_used ≤ g.buffer_used ∧
  g.buffer_used ≤ env.BUFSZ ∧ g.buffer.length = env.BUFSZ ∧
  ∃ new : List ReadResult, g.hnd.log = f.hnd.log ++ new ∧
    g.buffer.take g.buffer_used = f.buffer.take f.buffer_used ++ delivered new ∧
    LoopExit env f.eof r g new

/-- What `precache`, called in `f`, has done when it returns `r` in state `g`. -/
def PrecachePost {σ : Type} (env : Env σ) (f : file_istream_t σ) (r : Int)
    (g : file_istream_t σ) : Prop :=
  Inv env g ∧
  ∃ new : List ReadResult, g.hnd.log = f.hnd.log ++ new ∧
    window g = window f ++ delivered new ∧
    ((f.eof = true ∧ r = 0 ∧ g = f ∧ new = []) ∨
     (f.eof = false ∧ g.buffer_offset = 0 ∧ LoopExit env false r g new))

/-- What `file_get_buffered_data`, called in `f` with `want`, has done when it
returns `res` in state `g`: either it succeeded (the out-parameters are
written as in the last lines of the function), or a read error was passed on. -/
def GetPost {σ : Type} (env : Env σ) (f : file_istream_t σ) (want : Nat) (res : GetResult)
    (g : file_istream_t σ) : Prop :=
  Inv env g ∧
  ∃ new : List ReadResult, g.hnd.log = f.hnd.log ++ new ∧
    window g = window f ++ delivered new ∧
    ((res = get_tail g ∧
        (g.eof = true ∨ min want env.BUFSZ ≤ g.buffer_used - g.buffer_offset) ∧
        ((g.eof = f.eof ∧ ∀ x ∈ new, Continues x) ∨
         (g.eof = true ∧
            ∃ pre x, new = pre ++ [x] ∧ EndsStream x ∧ ∀ y ∈ pre, Continues y))) ∨
     (res = { ret := Env.SQFS_ERROR_IO env, out := none, size := none } ∧ g.eof = f.eof ∧
        f.eof = false ∧ ∃ pre x, new = pre ++ [x] ∧ IsReadError x ∧ ∀ y ∈ pre, Continues y))

/-- The bytes consumed so far (`consumed`) followed by the bytes still in the
window are exactly the bytes `ReadFile` has delivered so far. -/
def Consistent {σ : Type} (file : file_istream_t σ) (consumed : List sqfs_u8) : Prop :=
  consumed ++ window file = delivered file.hnd.log

/-- One call of a consumer of the stream. -/
inductive Op where
  | get (want : Nat)
  | advance (count : Nat)
  deriving DecidableEq, Repr

/-- A consumer that issues the calls `ops` in order, starting in state `file`
with `consumed` already consumed. Advancing by `count` consumes the first
`count` bytes of the current window. The run stops with `none` when an
assertion of `file_advance_buffer` fails. -/
def run_client {σ : Type} (env : Env σ) :
    List Op → file_istream_t σ → List sqfs_u8 → Option (file_istream_t σ × List sqfs_u8)
  | [], file, consumed => some (file, consumed)
  | Op.get want :: ops, file, consumed =>
    match file_get_buffered_data env file want with
    | some (_, file1) => run_client env ops file1 consumed
    | none => none
  | Op.advance count :: ops, file, consumed =>
    match file_advance_buffer file count with
    | Except.ok file1 => run_client env ops file1 (consumed ++ (window file).take count)
    | Except.error _ => none

/-- A file handle for the examples: the remaining content of the file, read at
most two bytes at a time; reading at the end gives a zero-length read. -/
def chunkedRead (s : List sqfs_u8) (diff : Nat) : ReadResult × List sqfs_u8 :=
  (ReadResult.ok (s.take (min diff 2)), s.drop (min diff 2))

/-- Example environment: a buffer of four bytes over `chunkedRead`. -/
def exampleEnv : Env (List sqfs_u8) :=
  { BUFSZ := 4, SQFS_ERROR_IO := -2, ReadFile := chunkedRead }

/-- A stream state for the examples: bytes `[7, 8]` of the buffer are still
unconsumed, one byte was consumed before. -/
def exampleFile : file_istream_t (List sqfs_u8) :=
  { hnd := { os := [9, 10, 11], log := [ReadResult.ok [6, 7], ReadResult.ok [8]] },
    eof := false,
    buffer_offset := 1,
    buffer_used := 3,
    buffer := [6, 7, 8, 0] }

/-- The state `file_get_buffered_data` leaves when called on `exampleFile` with
`want = 3`: the window was moved to the front and two more bytes were read. -/
def exampleFileAfterGet : file_istream_t (List sqfs_u8) :=
  { hnd := { os := [11],
             log := [ReadResult.ok [6, 7], ReadResult.ok [8], ReadResult.ok [9, 10]] },
    eof := false,
    buffer_offset := 0,
    buffer_used := 4,
    buffer := [7, 8, 9, 10] }

/-- A handle whose first read fails with error code 5 (access denied). -/
def failingRead (s : List sqfs_u8) (_diff : Nat) : ReadResult × List sqfs_u8 :=
  (ReadResult.fail 5, s)

/-- Example environment whose reads fail. -/
def failingEnv : Env (List sqfs_u8) :=
  { BUFSZ := 4, SQFS_ERROR_IO := -2, ReadFile := failingRead }

end IStream

namespace FsTree

/-- The struct `sqfs_dir_entry_t`, as far as `fstree_from_dir` reads it. -/
structure sqfs_dir_entry_t where
  name : String
  mode : Nat
  deriving DecidableEq, Repr

/-- File type mask of a mode. -/
def S_IFMT : Nat := 0o170000

/-- File type bits of a symbolic link. -/
def S_IFLNK : Nat := 0o120000

/-- The test `S_ISLNK(mode)`. -/
def S_ISLNK (mode : Nat) : Bool := (mode &&& S_IFMT) == S_IFLNK

/-- One record on stderr, kept as the arguments of the call that wrote it: the
message, the path it names (`none`: no path argument, or `NULL`) and the error
code it carries (`none`: the call has no error code argument). -/
structure Diagnostic where
  message : String
  path : Option String
  error_code : Option Int
  deriving DecidableEq, Repr

/-- The call `sqfs_perror(message, path, error_code)`; `path` is `none` for a
`NULL` argument. The function is not in these source files; its call is kept
as the record of its arguments. -/
def sqfs_perror (message : String) (path : Option String) (error_code : Int) : Diagnostic :=
  { message := message, path := path, error_code := some error_code }

/-- The call `perror(message)`. -/
def perror (message : String) : Diagnostic :=
  { message := message, path := none, error_code := none }

/-- What `dir->next(dir, &ent)` gives back: an entry (return value 0), or a
non-zero return value with `ent` left `NULL`. -/
inductive NextResult where
  | entry (ent : sqfs_dir_entry_t)
  | code (ret : Int) (h : ret ≠ 0)

/-- The two operations of `sqfs_dir_iterator_t` the loop uses, on an iterator
state `δ`. `read_link` gives its return value and what it stored in `*out`
(`none`: left `NULL`). -/
structure sqfs_dir_iterator_t (δ : Type) where
  next : δ → NextResult × δ
  read_link : δ → (Int × Option String) × δ

/-- Everything `fstree_from_dir` leaves behind: its return value, the tree, the
iterator and stderr. -/
structure ScanResult (φ δ : Type) where
  ret : Int
  fs : φ
  dir : δ
  stderr : List Diagnostic

/-- The function `fstree_from_dir`. `fstree_add_generic` returns the new node
(`none` for `NULL`) and the tree it leaves. Every iteration of `for (;;)` takes
one unit of fuel; `none` means the fuel ran out before the loop left.
When the entry is no symbolic link, `ret` is still 0 and `extra` still `NULL`
at the call of `fstree_add_generic`. -/
def fstree_from_dir {φ ν δ : Type}
    (fstree_add_generic : φ → sqfs_dir_entry_t → Option String → Option ν × φ)
    (dir_ops : sqfs_dir_iterator_t δ) :
    Nat → φ → δ → List Diagnostic → Option (ScanResult φ δ)
  | 0, _, _, _ => none
  | fuel + 1, fs, dir, err =>
    match dir_ops.next dir with
    | (NextResult.code ret h, dir1) =>
      if hpos : 0 < ret then
        some { ret := 0, fs := fs, dir := dir1, stderr := err }
      else if hneg : ret < 0 then
        some { ret := -1, fs := fs, dir := dir1,
               stderr := err ++ [sqfs_perror "readdir" none ret] }
      else
        absurd (Int.le_antisymm (Int.not_lt.mp hpos) (Int.not_lt.mp hneg)) h
    | (NextResult.entry ent, dir1) =>
      let lnk := if S_ISLNK ent.mode then dir_ops.read_link dir1 else ((0, none), dir1)
      if lnk.1.1 ≠ 0 then
        some { ret := -1, fs := fs, dir := lnk.2,
               stderr := err ++ [sqfs_perror "readlink" (some ent.name) lnk.1.1] }
      else
        match fstree_add_generic fs ent lnk.1.2 with
        | (none, fs1) =>
          some { ret := -1, fs := fs1, dir := lnk.2,
                 stderr := err ++ [perror "creating tree node"] }
        | (some _, fs1) => fstree_from_dir fstree_add_generic dir_ops fuel fs1 lnk.2 err

/-- An entry of a scripted directory: the entry `next` hands out and what
`read_link` answers while it is the current entry. -/
structure ScriptEntry where
  ent : sqfs_dir_entry_t
  link_ret : Int
  link : Option String
  deriving DecidableEq, Repr

/-- One answer of a scripted directory to `next`: an entry, or a return code (a
scripted code 0 is read as 1, end of directory). -/
inductive DirStep where
  | entry (e : ScriptEntry)
  | code (ret : Int)
  deriving DecidableEq, Repr

/-- A call made on the iterator. -/
inductive DirCall where
  | next
  | read_link
  deriving DecidableEq, Repr

/-- A directory iterator that answers from a script: `pending` are the answers
`next` has not given yet (after the last one it reports end of directory),
`current` is the answer of `read_link`, `calls` records the calls made. -/
structure ScriptDir where
  pending : List DirStep
  current : Int × Option String
  calls : List DirCall
  deriving DecidableEq, Repr

/-- The operation `next` of a scripted directory. -/
def ScriptDir.next (d : ScriptDir) : NextResult × ScriptDir :=
  match d.pending with
  | [] => (NextResult.code 1 (by decide), { d with calls := d.calls ++ [DirCall.next] })
  | DirStep.entry e :: rest =>
    (NextResult.entry e.ent,
      { pending := rest, current := (e.link_ret, e.link), calls := d.calls ++ [DirCall.next] })
  | DirStep.code ret :: rest =>
    (if h : ret ≠ 0 then NextResult.code ret h else NextResult.code 1 (by decide),
      { d with pending := rest, calls := d.calls ++ [DirCall.next] })

/-- The operation `read_link` of a scripted directory. -/
def ScriptDir.read_link (d : ScriptDir) : (Int × Option String) × ScriptDir :=
  (d.current, { d with calls := d.calls ++ [DirCall.read_link] })

/-- The scripted directories as an iterator. -/
def scriptIterator : sqfs_dir_iterator_t ScriptDir :=
  { next := ScriptDir.next, read_link := ScriptDir.read_link }

/-- A scripted directory on which no call has been made. -/
def ScriptDir.start (steps : List DirStep) : ScriptDir :=
  { pending := steps, current := (0, none), calls := [] }

/-- The `extra` argument `fstree_add_generic` is to get for an entry: the link
target for a symbolic link, `NULL` for anything else. -/
def ScriptEntry.extra (e : ScriptEntry) : Option String :=
  if S_ISLNK e.ent.mode then e.link else none

/-- The calls the loop is to make for an entry: `next`, and `read_link` exactly
for a symbolic link. -/
def ScriptEntry.calls (e : ScriptEntry) : List DirCall :=
  if S_ISLNK e.ent.mode then [DirCall.next, DirCall.read_link] else [DirCall.next]

/-- Reading the link of the entry succeeds, where it is read at all. -/
def ScriptEntry.link_ok (e : ScriptEntry) : Bool :=
  !(S_ISLNK e.ent.mode) || decide (e.link_ret = 0)

/-- Folding `fstree_add_generic` over the entries, once each, in order. -/
def fold_entries {φ ν : Type}
    (fstree_add_generic : φ → sqfs_dir_entry_t → Option String → Option ν × φ)
    (fs : φ) (es : List ScriptEntry) : φ :=
  es.foldl (fun t e => (fstree_add_generic t e.ent e.extra).2) fs

/-- Every `read_link` and every `fstree_add_generic` call of the fold over the
entries succeeds. -/
def all_succeed {φ ν : Type}
    (fstree_add_generic : φ → sqfs_dir_entry_t → Option String → Option ν × φ) :
    φ → List ScriptEntry → Bool
  | _, [] => true
  | fs, e :: rest =>
    e.link_ok && (fstree_add_generic fs e.ent e.extra).1.isSome &&
      all_succeed fstree_add_generic (fstree_add_generic fs e.ent e.extra).2 rest

/-- The iterator reports end of directory at its next answer. -/
def ends_directory : List DirStep → Bool
  | [] => true
  | DirStep.code ret :: _ => decide (0 ≤ ret)
  | DirStep.entry _ :: _ => false

/-- A tree for the examples: the list of (name, extra) pairs added so far. -/
abbrev ListTree := List (String × Option String)

/-- An `fstree_add_generic` for the examples: it appends the entry, and fails
(leaving the tree as it is) when the name is in the tree already. -/
def listAdd (fs : ListTree) (ent : sqfs_dir_entry_t) (extra : Option String) :
    Option Unit × ListTree :=
  if fs.any (fun n => n.1 == ent.name) then (none, fs) else (some (), fs ++ [(ent.name, extra)])

/-- A regular file entry for the examples. -/
def regularEntry (name : String) : ScriptEntry :=
  { ent := { name := name, mode := 0o100644 }, link_ret := 0, link := none }

/-- A symbolic link entry for the examples, with the answer of `read_link`. -/
def symlinkEntry (name : String) (link_ret : Int) (link : Option String) : ScriptEntry :=
  { ent := { name := name, mode := 0o120777 }, link_ret := link_ret, link := link }

end FsTree


namespace IStream

theorem size_sub_eq (a b : Nat) (hb : b ≤ a) (ha : a < SIZE_MOD) : size_sub a b = a - b := by
  unfold size_sub
  have h : a + SIZE_MOD - b = (a - b) + SIZE_MOD := by omega
  rw [h, Nat.add_mod_right, Nat.mod_eq_of_lt (by omega)]

theorem size_add_eq (a b : Nat) (h : a + b < SIZE_MOD) : size_add a b = a + b := by
  unfold size_add
  exact Nat.mod_eq_of_lt h

theorem dword_lt_size : DWORD_MOD < SIZE_MOD := by
  unfold DWORD_MOD SIZE_MOD
  omega

theorem two_dword_le_size : 2 * DWORD_MOD ≤ SIZE_MOD := by
  unfold DWORD_MOD SIZE_MOD
  omega

theorem store_length (buffer : List sqfs_u8) (pos : Nat) (data : List sqfs_u8)
    (h : pos + data.length ≤ buffer.length) : (store buffer pos data).length = buffer.length := by
  unfold store
  simp only [List.length_append, List.length_take, List.length_drop]
  omega

theorem store_take (buffer : List sqfs_u8) (pos : Nat) (data : List sqfs_u8)
    (h : pos ≤ buffer.length) :
    (store buffer pos data).take (pos + data.length) = buffer.take pos ++ data := by
  unfold store
  have hl : (List.take pos buffer ++ data).length = pos + data.length := by
    simp only [List.length_append, List.length_take]
    omega
  exact List.take_left' hl

theorem store_nil (buffer : List sqfs_u8) (pos : Nat) : store buffer pos [] = buffer := by
  unfold store
  simp

theorem memmove_front_length (buffer : List sqfs_u8) (src n : Nat)
    (h : src + n ≤ buffer.length) : (memmove_front buffer src n).length = buffer.length := by
  unfold memmove_front
  simp only [List.length_append, List.length_take, List.length_drop]
  omega

theorem memmove_front_take (buffer : List sqfs_u8) (src n : Nat)
    (h : src + n ≤ buffer.length) :
    (memmove_front buffer src n).take n = (buffer.drop src).take n := by
  unfold memmove_front
  have hl : ((buffer.drop src).take n).length = n := by
    simp only [List.length_take, List.length_drop]
    omega
  exact List.take_left' hl

theorem delivered_append (l1 l2 : List ReadResult) :
    delivered (l1 ++ l2) = delivered l1 ++ delivered l2 := by
  induction l1 with
  | nil => rfl
  | cons x rest ih =>
    cases x with
    | ok data => simp [delivered, ih]
    | fail e => simp [delivered, ih]

theorem precache_loop_spec {σ : Type} (env : Env σ) (hB : env.BUFSZ < DWORD_MOD)
    (hR : ReadBounded env) :
    ∀ (fuel : Nat) (f : file_istream_t σ), f.buffer_used ≤ env.BUFSZ →
      f.buffer.length = env.BUFSZ → env.BUFSZ - f.buffer_used < fuel →
      ∃ r g, precache_loop env fuel f = some (r, g) ∧ LoopPost env f r g := by
  intro fuel
  induction fuel with
  | zero => intro f _ _ h; omega
  | succ fuel ih =>
    intro f hu hl hfuel
    by_cases hlt : f.buffer_used < env.BUFSZ
    · have hdiff : (env.BUFSZ - f.buffer_used) % DWORD_MOD = env.BUFSZ - f.buffer_used :=
        Nat.mod_eq_of_lt (by omega)
      rcases hrf : env.ReadFile f.hnd.os (env.BUFSZ - f.buffer_used) with ⟨res, os1⟩
      cases res with
      | fail e =>
        by_cases he : e = ERROR_HANDLE_EOF ∨ e = ERROR_BROKEN_PIPE
        · have hstep : precache_loop env (fuel + 1) f =
              some (0, { f with hnd := { os := os1, log := f.hnd.log ++ [ReadResult.fail e] },
                                eof := true }) := by
            simp only [precache_loop, hlt, if_true, hdiff, Handle.read, hrf, he]
          refine ⟨_, _, hstep, ?_⟩
          · refine ⟨rfl, le_refl _, hu, hl, [ReadResult.fail e], rfl, ?_, ?_⟩
            · simp [delivered]
            · exact Or.inr (Or.inl ⟨rfl, rfl, [], ReadResult.fail e, rfl, he, by simp⟩)
        · have hstep : precache_loop env (fuel + 1) f =
              some ( Env.SQFS_ERROR_IO env,
                { f with hnd := { os := os1, log := f.hnd.log ++ [ReadResult.fail e] } }) := by
            simp only [precache_loop, hlt, if_true, hdiff, Handle.read, hrf, he, if_false]
          refine ⟨_, _, hstep, ?_⟩
          · refine ⟨rfl, le_refl _, hu, hl, [ReadResult.fail e], rfl, ?_, ?_⟩
            · simp [delivered]
            · refine Or.inr (Or.inr ⟨rfl, rfl, [], ReadResult.fail e, rfl, ?_, by simp⟩)
              exact not_or.mp he
      | ok data =>
        have hlen : data.length ≤ env.BUFSZ - f.buffer_used := hR _ _ _ _ hrf
        by_cases hz : data.length = 0
        · have hnil : data = [] := List.length_eq_zero.mp hz
          subst hnil
          have hstep : precache_loop env (fuel + 1) f =
              some (0, { f with hnd := { os := os1, log := f.hnd.log ++ [ReadResult.ok []] },
                                buffer := store f.buffer f.buffer_used [],
                                eof := true }) := by
            simp only [precache_loop, hlt, if_true, hdiff, Handle.read, hrf, List.length_nil]
          refine ⟨_, _, hstep, ?_⟩
          · refine ⟨rfl, le_refl _, hu, ?_, [ReadResult.ok []], rfl, ?_, ?_⟩
            · simp only [store_nil]; exact hl
            · simp [delivered, store_nil]
            · exact Or.inr (Or.inl ⟨rfl, rfl, [], ReadResult.ok [], rfl, rfl, by simp⟩)
        · have hadd : size_add f.buffer_used data.length = f.buffer_used + data.length := by
            apply size_add_eq
            have := dword_lt_size
            omega
          have hstep : precache_loop env (fuel + 1) f =
              precache_loop env fuel
                { hnd := { os := os1, log := f.hnd.log ++ [ReadResult.ok data] },
                  eof := f.eof, buffer_offset := f.buffer_offset,
                  buffer_used := f.buffer_used + data.length,
                  buffer := store f.buffer f.buffer_used data } := by
            simp only [precache_loop, hlt, if_true, hdiff, Handle.read, hrf, hz, if_false, hadd]
          obtain ⟨r, g, hg, hp⟩ := ih
            { hnd := { os := os1, log := f.hnd.log ++ [ReadResult.ok data] },
              eof := f.eof, buffer_offset := f.buffer_offset,
              buffer_used := f.buffer_used + data.length,
              buffer := store f.buffer f.buffer_used data }
            (by simp only; omega)
            (by simp only; rw [store_length _ _ _ (by omega)]; exact hl)
            (by simp only; omega)
          refine ⟨r, g, by rw [hstep]; exact hg, ?_⟩
          obtain ⟨ho, hu1, hu2, hl2, new, hlog, hbuf, hex⟩ := hp
          simp only at ho hu1 hlog hbuf hex
          refine ⟨ho, by omega, hu2, hl2, ReadResult.ok data :: new, ?_, ?_, ?_⟩
          · rw [hlog]; simp
          · rw [hbuf, store_take _ _ _ (by omega)]; simp [delivered]
          · have hc : Continues (ReadResult.ok data) := by
              intro hd; exact hz (by rw [hd]; rfl)
            rcases hex with ⟨h1, h2, h3, h4⟩ | ⟨h1, h2, pre, x, h3, h4, h5⟩ |
                ⟨h1, h2, pre, x, h3, h4, h5⟩
            · refine Or.inl ⟨h1, h2, h3, ?_⟩
              intro x hx
              rcases List.mem_cons.mp hx with hx | hx
              · rw [hx]; exact hc
              · exact h4 x hx
            · refine Or.inr (Or.inl ⟨h1, h2, ReadResult.ok data :: pre, x, by rw [h3]; rfl, h4, ?_⟩)
              intro y hy
              rcases List.mem_cons.mp hy with hy | hy
              · rw [hy]; exact hc
              · exact h5 y hy
            · refine Or.inr (Or.inr ⟨h1, h2, ReadResult.ok data :: pre, x, by rw [h3]; rfl, h4, ?_⟩)
              intro y hy
              rcases List.mem_cons.mp hy with hy | hy
              · rw [hy]; exact hc
              · exact h5 y hy
    · have he : f.buffer_used = env.BUFSZ := by omega
      refine ⟨0, f, ?_, ?_⟩
      · simp only [precache_loop, hlt, if_false]
      · exact ⟨rfl, le_refl _, hu, hl, [], by simp, by simp [delivered],
          Or.inl ⟨rfl, rfl, he, by simp⟩⟩

theorem precache_loop_more_fuel {σ : Type} (env : Env σ) :
    ∀ (fuel : Nat) (f : file_istream_t σ) (res : Int × file_istream_t σ),
      precache_loop env fuel f = some res →
      ∀ k : Nat, precache_loop env (fuel + k) f = some res := by
  intro fuel
  induction fuel with
  | zero =>
    intro f res h
    simp [precache_loop] at h
  | succ fuel ih =>
    intro f res h k
    have hk : fuel + 1 + k = (fuel + k) + 1 := by omega
    rw [hk]
    by_cases hlt : f.buffer_used < env.BUFSZ
    · rcases hrf : env.ReadFile f.hnd.os ((env.BUFSZ - f.buffer_used) % DWORD_MOD)
        with ⟨rr, os1⟩
      cases rr with
      | fail e =>
        simp only [precache_loop, hlt, if_true, Handle.read, hrf] at h ⊢
        exact h
      | ok data =>
        by_cases hz : data.length = 0
        · simp only [precache_loop, hlt, if_true, Handle.read, hrf, hz] at h ⊢
          exact h
        · simp only [precache_loop, hlt, if_true, Handle.read, hrf, hz, if_false] at h ⊢
          exact ih _ res h k
    · simp only [precache_loop, hlt, if_false] at h ⊢
      exact h

theorem precache_spec {σ : Type} (env : Env σ) (hB : env.BUFSZ < DWORD_MOD)
    (hR : ReadBounded env) (f : file_istream_t σ) (hI : Inv env f) :
    ∃ r g, precache env f = some (r, g) ∧ PrecachePost env f r g := by
  obtain ⟨hou, hub, hlen⟩ := hI
  by_cases heof : f.eof = true
  · refine ⟨0, f, by simp [precache, heof], ⟨hou, hub, hlen⟩, [], by simp, by simp [delivered],
      Or.inl ⟨heof, rfl, rfl, rfl⟩⟩
  · have heof2 : f.eof = false := by simpa using heof
    have hsz : f.buffer_used < SIZE_MOD := by
      have := dword_lt_size
      omega
    have hsub : size_sub f.buffer_used f.buffer_offset = f.buffer_used - f.buffer_offset :=
      size_sub_eq _ _ hou hsz
    -- the buffer after the optional memmove
    obtain ⟨buf1, hbuf1, hlen1, htake1⟩ : ∃ buf1 : List sqfs_u8,
        precache env f = precache_loop env (env.BUFSZ - (f.buffer_used - f.buffer_offset) + 1)
          { hnd := f.hnd, eof := f.eof, buffer_offset := 0,
            buffer_used := f.buffer_used - f.buffer_offset, buffer := buf1 } ∧
        buf1.length = env.BUFSZ ∧
        buf1.take (f.buffer_used - f.buffer_offset) = window f := by
      by_cases hc : 0 < f.buffer_offset ∧ f.buffer_offset < f.buffer_used
      · refine ⟨memmove_front f.buffer f.buffer_offset (f.buffer_used - f.buffer_offset),
          ?_, ?_, ?_⟩
        · simp [precache, heof2, hc, hsub]
        · rw [memmove_front_length _ _ _ (by omega)]; exact hlen
        · rw [memmove_front_take _ _ _ (by omega)]; rfl
      · refine ⟨f.buffer, ?_, hlen, ?_⟩
        · simp only [precache, heof2, hc, if_false, hsub]
          rfl
        · unfold window
          by_cases h0 : f.buffer_offset = 0
          · rw [h0]; simp
          · have : f.buffer_used - f.buffer_offset = 0 := by omega
            rw [this]; simp
    obtain ⟨r, g, hg, ho, _, hu2, hl2, new, hlog, hbuf, hex⟩ :=
      precache_loop_spec env hB hR (env.BUFSZ - (f.buffer_used - f.buffer_offset) + 1)
        { hnd := f.hnd, eof := f.eof, buffer_offset := 0,
          buffer_used := f.buffer_used - f.buffer_offset, buffer := buf1 }
        (by simp only; omega) hlen1 (by simp only; omega)
    simp only at ho hlog hbuf hex
    refine ⟨r, g, by rw [hbuf1]; exact hg, ⟨by omega, hu2, hl2⟩, new, hlog, ?_, ?_⟩
    · rw [← htake1, ← hbuf]
      unfold window
      rw [ho]; simp
    · rw [heof2] at hex
      exact Or.inr ⟨heof2, ho, hex⟩

theorem get_spec {σ : Type} (env : Env σ) (hB : env.BUFSZ < DWORD_MOD)
    (hR : ReadBounded env) (hE : Env.SQFS_ERROR_IO env ≠ 0) (f : file_istream_t σ)
    (hI : Inv env f) (want : Nat) :
    ∃ res g, file_get_buffered_data env f want = some (res, g) ∧ GetPost env f want res g := by
  have hsz : f.buffer_used < SIZE_MOD := by
    have := dword_lt_size
    have := hI.2.1
    omega
  have hsub : size_sub f.buffer_used f.buffer_offset = f.buffer_used - f.buffer_offset :=
    size_sub_eq _ _ hI.1 hsz
  have hwant : (if want > env.BUFSZ then env.BUFSZ else want) = min want env.BUFSZ := by
    split <;> omega
  by_cases hc : f.buffer_used = 0 ∨ f.buffer_used - f.buffer_offset < min want env.BUFSZ
  · obtain ⟨r, g, hg, hgI, new, hlog, hwin, hcase⟩ := precache_spec env hB hR f hI
    by_cases hr : r = 0
    · refine ⟨get_tail g, g, ?_, hgI, new, hlog, hwin, Or.inl ⟨rfl, ?_⟩⟩
      · simp only [file_get_buffered_data, hwant, hsub, hc, if_true, hg, hr]
        simp
      · rcases hcase with ⟨h1, _, h3, h4⟩ | ⟨_, h2, hex⟩
        · subst h3
          exact ⟨Or.inl h1, Or.inl ⟨rfl, by rw [h4]; simp⟩⟩
        · rcases hex with ⟨_, e2, e3, e4⟩ | ⟨_, e2, e3⟩ | ⟨e1, _, _⟩
          · refine ⟨Or.inr ?_, Or.inl ⟨by rw [e2, ‹f.eof = false›], e4⟩⟩
            rw [e3, h2]
            exact Nat.min_le_right _ _
          · exact ⟨Or.inl e2, Or.inr ⟨e2, e3⟩⟩
          · exact absurd (e1.symm.trans hr) hE
    · refine ⟨{ ret := r, out := none, size := none }, g, ?_, hgI, new, hlog, hwin, Or.inr ?_⟩
      · simp only [file_get_buffered_data, hwant, hsub, hc, if_true, hg]
        simp [hr]
      · rcases hcase with ⟨_, h2, _, _⟩ | ⟨h1, _, hex⟩
        · exact absurd h2 hr
        · rcases hex with ⟨e1, _⟩ | ⟨e1, _⟩ | ⟨e1, e2, e3⟩
          · exact absurd e1 hr
          · exact absurd e1 hr
          · exact ⟨by rw [e1], by rw [e2, h1], h1, e3⟩
  · refine ⟨get_tail f, f, ?_, hI, [], by simp, by simp [delivered], Or.inl ⟨rfl, ?_, ?_⟩⟩
    · simp only [file_get_buffered_data, hwant, hsub, hc, if_false]
    · right
      have := not_or.mp hc
      omega
    · exact Or.inl ⟨rfl, by simp⟩

theorem exampleEnv_bounded : ReadBounded exampleEnv := by
  intro s diff data s1 h
  simp only [exampleEnv, chunkedRead, Prod.mk.injEq, ReadResult.ok.injEq] at h
  rw [← h.1, List.length_take]
  omega

theorem failingEnv_bounded : ReadBounded failingEnv := by
  intro s diff data s1 h
  simp [failingEnv, failingRead] at h

theorem exampleFile_inv : Inv exampleEnv exampleFile := by
  refine ⟨?_, ?_, ?_⟩ <;> decide

theorem not_readError_of_continues (x : ReadResult) (h : Continues x) : ¬ IsReadError x := by
  cases x with
  | ok data => exact fun hx => hx
  | fail e => exact absurd h (fun hx => hx)

theorem not_readError_of_endsStream (x : ReadResult) (h : EndsStream x) : ¬ IsReadError x := by
  cases x with
  | ok data => exact fun hx => hx
  | fail e =>
    intro hx
    rcases h with h | h
    · exact hx.1 h
    · exact hx.2 h

theorem get_tail_inv {σ : Type} (env : Env σ) (hB : env.BUFSZ < DWORD_MOD)
    (g : file_istream_t σ) (hI : Inv env g) :
    get_tail g = { ret := if g.eof = true ∧ g.buffer_used - g.buffer_offset = 0 then 1 else 0,
                   out := some g.buffer_offset,
                   size := some (g.buffer_used - g.buffer_offset) } := by
  have hsz : g.buffer_used < SIZE_MOD := by
    have := dword_lt_size
    have := hI.2.1
    omega
  unfold get_tail
  simp only [size_sub_eq _ _ hI.1 hsz]

/-- C1: in a state with `buffer_offset <= buffer_used <= BUFSZ`, advancing by more
than the available length `buffer_used - buffer_offset` is stopped by one of the
two assertions of `file_advance_buffer` and never accepted; when the first
assertion passes (`count <= buffer_used`) it is the second one that fails. -/
theorem advance_beyond_available_rejected {σ : Type} (env : Env σ) (file : file_istream_t σ)
    (count : Nat) (hB : 2 * env.BUFSZ < SIZE_MOD)
    (hou : file.buffer_offset ≤ file.buffer_used) (hub : file.buffer_used ≤ env.BUFSZ)
    (hc : file.buffer_used - file.buffer_offset < count) :
    (file_advance_buffer file count = Except.error AssertionFailure.count_le_buffer_used ∨
      file_advance_buffer file count =
        Except.error AssertionFailure.buffer_offset_le_buffer_used) ∧
    (∀ g, file_advance_buffer file count ≠ Except.ok g) ∧
    (count ≤ file.buffer_used →
      file_advance_buffer file count =
        Except.error AssertionFailure.buffer_offset_le_buffer_used) := by
  have key : count ≤ file.buffer_used →
      file_advance_buffer file count =
        Except.error AssertionFailure.buffer_offset_le_buffer_used := by
    intro hle
    have hadd : size_add file.buffer_offset count = file.buffer_offset + count :=
      size_add_eq _ _ (by omega)
    have hnot : ¬ (file.buffer_offset + count ≤ file.buffer_used) := by omega
    simp only [file_advance_buffer, hle, if_true, hadd, hnot, if_false]
  by_cases hle : count ≤ file.buffer_used
  · refine ⟨Or.inr (key hle), ?_, key⟩
    intro g hg
    rw [key hle] at hg
    cases hg
  · have h1 : file_advance_buffer file count =
        Except.error AssertionFailure.count_le_buffer_used := by
      simp only [file_advance_buffer, hle, if_false]
    refine ⟨Or.inl h1, ?_, key⟩
    intro g hg
    rw [h1] at hg
    cases hg

/-- Witness for C1: offset 1, used 3, so two bytes are available; advancing by
three passes the first assertion and fails the second. -/
theorem advance_beyond_available_rejected_witness :
    (file_advance_buffer exampleFile 3 = Except.error AssertionFailure.count_le_buffer_used ∨
      file_advance_buffer exampleFile 3 =
        Except.error AssertionFailure.buffer_offset_le_buffer_used) ∧
    (∀ g, file_advance_buffer exampleFile 3 ≠ Except.ok g) ∧
    (3 ≤ exampleFile.buffer_used →
      file_advance_buffer exampleFile 3 =
        Except.error AssertionFailure.buffer_offset_le_buffer_used) :=
  advance_beyond_available_rejected exampleEnv exampleFile 3 (by decide) (by decide)
    (by decide) (by decide)

/-- C2: from a state with `buffer_offset <= buffer_used <= BUFSZ`, with `ReadFile`
never returning more than requested, `file_get_buffered_data` returns, and when
it does not return the error code the size it reports is at least
`min(want, BUFSZ)` unless the end-of-file flag is set. -/
theorem get_at_least_want_or_eof {σ : Type} (env : Env σ) (file : file_istream_t σ)
    (want : Nat) (hB : env.BUFSZ < DWORD_MOD) (hE : Env.SQFS_ERROR_IO env ≠ 0)
    (hR : ReadBounded env) (hI : Inv env file) :
    ∃ res g, file_get_buffered_data env file want = some (res, g) ∧
      (res.ret ≠ Env.SQFS_ERROR_IO env →
        ∃ out size, res.out = some out ∧ res.size = some size ∧
          (min want env.BUFSZ ≤ size ∨ g.eof = true)) := by
  obtain ⟨res, g, hget, hgI, new, _, _, hcase⟩ := get_spec env hB hR hE file hI want
  refine ⟨res, g, hget, ?_⟩
  intro hne
  rcases hcase with ⟨h1, h2, _⟩ | ⟨h1, _⟩
  · rw [get_tail_inv env hB g hgI] at h1
    refine ⟨g.buffer_offset, g.buffer_used - g.buffer_offset, by rw [h1], by rw [h1], ?_⟩
    rcases h2 with h2 | h2
    · exact Or.inr h2
    · exact Or.inl h2
  · exact absurd (by rw [h1]) hne

/-- Witness for C2: two bytes are buffered and three are wanted; the reads
come two bytes at a time and the call still returns at least three bytes. -/
theorem get_at_least_want_or_eof_witness :
    ∃ res g, file_get_buffered_data exampleEnv exampleFile 3 = some (res, g) ∧
      (res.ret ≠ Env.SQFS_ERROR_IO exampleEnv →
        ∃ out size, res.out = some out ∧ res.size = some size ∧
          (min 3 exampleEnv.BUFSZ ≤ size ∨ g.eof = true)) :=
  get_at_least_want_or_eof exampleEnv exampleFile 3 (by decide) (by decide)
    exampleEnv_bounded exampleFile_inv

/-- C4: a call of `file_get_buffered_data` that does not return the error code
returns 1 exactly when the end-of-file flag is set and the reported size is 0,
and returns 0 otherwise; the reported size is `buffer_used - buffer_offset`.
For `want >= 1` a return value of 0 comes with a size of at least 1. -/
theorem get_end_of_stream_flag {σ : Type} (env : Env σ) (file : file_istream_t σ)
    (want : Nat) (hB0 : 0 < env.BUFSZ) (hB : env.BUFSZ < DWORD_MOD)
    (hE : Env.SQFS_ERROR_IO env < 0) (hR : ReadBounded env) (hI : Inv env file) :
    ∃ res g, file_get_buffered_data env file want = some (res, g) ∧
      (res.ret ≠ Env.SQFS_ERROR_IO env →
        ∃ out size, res.out = some out ∧ res.size = some size ∧
          size = g.buffer_used - g.buffer_offset ∧
          (res.ret = 1 ↔ (g.eof = true ∧ size = 0)) ∧
          (res.ret ≠ 1 → res.ret = 0) ∧
          (1 ≤ want → res.ret = 0 → 1 ≤ size)) := by
  obtain ⟨res, g, hget, hgI, new, _, _, hcase⟩ :=
    get_spec env hB hR (by omega) file hI want
  refine ⟨res, g, hget, ?_⟩
  intro hne
  rcases hcase with ⟨h1, h2, _⟩ | ⟨h1, _⟩
  · rw [get_tail_inv env hB g hgI] at h1
    refine ⟨g.buffer_offset, g.buffer_used - g.buffer_offset, by rw [h1], by rw [h1], rfl,
      ?_, ?_, ?_⟩
    · rw [h1]
      by_cases hc : g.eof = true ∧ g.buffer_used - g.buffer_offset = 0
      · simp only [hc, and_self, if_true]
      · simp only [hc, if_false]
        constructor
        · intro h; exact absurd h (by decide)
        · intro h; exact h.elim
    · rw [h1]
      by_cases hc : g.eof = true ∧ g.buffer_used - g.buffer_offset = 0
      · simp only [hc, and_self, if_true]
        intro h; exact absurd rfl h
      · simp only [hc, if_false]
        intro _; trivial
    · intro hw
      rw [h1]
      by_cases hc : g.eof = true ∧ g.buffer_used - g.buffer_offset = 0
      · simp only [hc, and_self, if_true]
        intro h; exact absurd h (by decide)
      · intro _
        rcases h2 with h2 | h2
        · have : ¬ (g.buffer_used - g.buffer_offset = 0) := fun h0 => hc ⟨h2, h0⟩
          omega
        · have : 1 ≤ min want env.BUFSZ := Nat.le_min.mpr ⟨hw, hB0⟩
          omega
  · exact absurd (by rw [h1]) hne

/-- Witness for C4 on the example stream with `want = 3`. -/
theorem get_end_of_stream_flag_witness :
    ∃ res g, file_get_buffered_data exampleEnv exampleFile 3 = some (res, g) ∧
      (res.ret ≠ Env.SQFS_ERROR_IO exampleEnv →
        ∃ out size, res.out = some out ∧ res.size = some size ∧
          size = g.buffer_used - g.buffer_offset ∧
          (res.ret = 1 ↔ (g.eof = true ∧ size = 0)) ∧
          (res.ret ≠ 1 → res.ret = 0) ∧
          (1 ≤ 3 → res.ret = 0 → 1 ≤ size)) :=
  get_end_of_stream_flag exampleEnv exampleFile 3 (by decide) (by decide) (by decide)
    exampleEnv_bounded exampleFile_inv

/-- C5: `file_get_buffered_data` returns, and if one of the `ReadFile` calls it
issued failed with an error code other than `ERROR_HANDLE_EOF` and
`ERROR_BROKEN_PIPE`, it returns `SQFS_ERROR_IO` (which is neither 0 nor 1),
writes neither out-parameter and leaves the end-of-file flag as it was (clear).
The flag becomes set only when the last `ReadFile` outcome of the call is
`ERROR_HANDLE_EOF`, `ERROR_BROKEN_PIPE` or a successful zero-byte read. -/
theorem get_read_error_propagates {σ : Type} (env : Env σ) (file : file_istream_t σ)
    (want : Nat) (hB : env.BUFSZ < DWORD_MOD) (hE : Env.SQFS_ERROR_IO env < 0)
    (hR : ReadBounded env) (hI : Inv env file) :
    ∃ res g new, file_get_buffered_data env file want = some (res, g) ∧
      g.hnd.log = file.hnd.log ++ new ∧
      ((∃ x ∈ new, IsReadError x) →
        res.ret = Env.SQFS_ERROR_IO env ∧ res.ret ≠ 0 ∧ res.ret ≠ 1 ∧
        res.out = none ∧ res.size = none ∧ g.eof = file.eof ∧ g.eof = false) ∧
      (file.eof = false → g.eof = true →
        ∃ pre x, new = pre ++ [x] ∧ EndsStream x) := by
  obtain ⟨res, g, hget, _, new, hlog, _, hcase⟩ :=
    get_spec env hB hR (by omega) file hI want
  refine ⟨res, g, new, hget, hlog, ?_, ?_⟩
  · rintro ⟨x, hx, hbad⟩
    rcases hcase with ⟨_, _, h3⟩ | ⟨h1, h2, h3, _⟩
    · exfalso
      rcases h3 with ⟨_, hall⟩ | ⟨_, pre, y, hnew, hy, hall⟩
      · exact not_readError_of_continues x (hall x hx) hbad
      · rw [hnew] at hx
        rcases List.mem_append.mp hx with hx | hx
        · exact not_readError_of_continues x (hall x hx) hbad
        · rw [List.mem_singleton.mp hx] at hbad
          exact not_readError_of_endsStream y hy hbad
    · rw [h1]
      refine ⟨rfl, ?_, ?_, rfl, rfl, h2, by rw [h2, h3]⟩
      · show Env.SQFS_ERROR_IO env ≠ 0
        omega
      · show Env.SQFS_ERROR_IO env ≠ 1
        omega
  · intro hf hg
    rcases hcase with ⟨_, _, h3⟩ | ⟨_, h2, _⟩
    · rcases h3 with ⟨h4, _⟩ | ⟨_, pre, y, hnew, hy, _⟩
      · rw [hf, hg] at h4
        cases h4
      · exact ⟨pre, y, hnew, hy⟩
    · rw [hf, hg] at h2
      cases h2

/-- Witness for C5: on a handle whose read fails with error code 5 the call on a
freshly opened stream returns `SQFS_ERROR_IO`. -/
theorem get_read_error_propagates_witness :
    ∃ res g new,
      file_get_buffered_data failingEnv (istream_open_handle failingEnv []) 1 = some (res, g) ∧
      g.hnd.log = (istream_open_handle failingEnv []).hnd.log ++ new ∧
      ((∃ x ∈ new, IsReadError x) →
        res.ret = Env.SQFS_ERROR_IO failingEnv ∧ res.ret ≠ 0 ∧ res.ret ≠ 1 ∧
        res.out = none ∧ res.size = none ∧
        g.eof = (istream_open_handle failingEnv ([] : List sqfs_u8)).eof ∧ g.eof = false) ∧
      ((istream_open_handle failingEnv ([] : List sqfs_u8)).eof = false → g.eof = true →
        ∃ pre x, new = pre ++ [x] ∧ EndsStream x) :=
  get_read_error_propagates failingEnv (istream_open_handle failingEnv []) 1 (by decide)
    (by decide) failingEnv_bounded ⟨by decide, by decide, by decide⟩

theorem advance_ok_iff {σ : Type} (env : Env σ) (hB : 2 * env.BUFSZ < SIZE_MOD)
    (f : file_istream_t σ) (hI : Inv env f) (count : Nat) (g : file_istream_t σ) :
    file_advance_buffer f count = Except.ok g ↔
      (count ≤ f.buffer_used - f.buffer_offset ∧
        g = { f with buffer_offset := f.buffer_offset + count }) := by
  obtain ⟨hou, hub, _⟩ := hI
  by_cases hle : count ≤ f.buffer_used
  · have hadd : size_add f.buffer_offset count = f.buffer_offset + count :=
      size_add_eq _ _ (by omega)
    by_cases h2 : f.buffer_offset + count ≤ f.buffer_used
    · simp only [file_advance_buffer, hle, if_true, hadd, h2, Except.ok.injEq]
      constructor
      · intro h; exact ⟨by omega, h.symm⟩
      · intro h; exact h.2.symm
    · simp only [file_advance_buffer, hle, if_true, hadd, h2, if_false]
      constructor
      · intro h; cases h
      · intro h; omega
  · simp only [file_advance_buffer, hle, if_false]
    constructor
    · intro h; cases h
    · intro h; omega

/-- C10: the invariant `buffer_offset <= buffer_used <= BUFSZ` (for a buffer of
`BUFSZ` bytes) holds in the freshly opened stream and is kept by `precache`, by
`file_get_buffered_data` whatever it returns, and by every accepted
`file_advance_buffer`, as long as `ReadFile` never returns more than requested.
Under the invariant the `size_t` subtraction equals the exact difference, the
offset addition of an accepted advance does not wrap, the `memmove` source range
and the `ReadFile` destination range end inside the buffer, every iteration of
the loop that goes on strictly increases `buffer_used` without passing `BUFSZ`,
and the loop leaves within `BUFSZ - buffer_used + 1` iterations, with a result
that more fuel does not change. -/
theorem buffer_invariant {σ : Type} (env : Env σ) (hB : env.BUFSZ < DWORD_MOD)
    (hE : Env.SQFS_ERROR_IO env ≠ 0) (hR : ReadBounded env) :
    (∀ os : σ, Inv env (istream_open_handle env os)) ∧
    (∀ f, Inv env f → ∃ r g, precache env f = some (r, g) ∧ Inv env g) ∧
    (∀ f want, Inv env f →
      ∃ res g, file_get_buffered_data env f want = some (res, g) ∧ Inv env g) ∧
    (∀ f count g, Inv env f → file_advance_buffer f count = Except.ok g →
      Inv env g ∧ g.buffer_offset = f.buffer_offset + count) ∧
    (∀ f, Inv env f →
      size_sub f.buffer_used f.buffer_offset + f.buffer_offset = f.buffer_used ∧
      f.buffer_offset + size_sub f.buffer_used f.buffer_offset ≤ f.buffer.length ∧
      f.buffer_used + (env.BUFSZ - f.buffer_used) % DWORD_MOD ≤ f.buffer.length) ∧
    (∀ f fuel data os1, Inv env f → f.buffer_used < env.BUFSZ →
      env.ReadFile f.hnd.os ((env.BUFSZ - f.buffer_used) % DWORD_MOD) =
        (ReadResult.ok data, os1) →
      data ≠ [] →
      f.buffer_used < size_add f.buffer_used data.length ∧
      size_add f.buffer_used data.length ≤ env.BUFSZ ∧
      (store f.buffer f.buffer_used data).length = env.BUFSZ ∧
      precache_loop env (fuel + 1) f =
        precache_loop env fuel
          { f with hnd := { os := os1, log := f.hnd.log ++ [ReadResult.ok data] },
                   buffer := store f.buffer f.buffer_used data,
                   buffer_used := size_add f.buffer_used data.length }) ∧
    (∀ f fuel, Inv env f → env.BUFSZ - f.buffer_used < fuel →
      ∃ r g, precache_loop env fuel f = some (r, g) ∧
        ∀ k, precache_loop env (fuel + k) f = some (r, g)) := by
  have hsize := dword_lt_size
  refine ⟨?_, ?_, ?_, ?_, ?_, ?_, ?_⟩
  · intro os
    refine ⟨le_refl _, Nat.zero_le _, ?_⟩
    simp [istream_open_handle]
  · intro f hI
    obtain ⟨r, g, hg, hp⟩ := precache_spec env hB hR f hI
    exact ⟨r, g, hg, hp.1⟩
  · intro f want hI
    obtain ⟨res, g, hg, hp⟩ := get_spec env hB hR hE f hI want
    exact ⟨res, g, hg, hp.1⟩
  · intro f count g hI hg
    have h2 := two_dword_le_size
    obtain ⟨hc, rfl⟩ := (advance_ok_iff env (by omega) f hI count g).mp hg
    obtain ⟨hou, hub, hlen⟩ := hI
    exact ⟨⟨by simp only; omega, hub, hlen⟩, rfl⟩
  · intro f hI
    obtain ⟨hou, hub, hlen⟩ := hI
    rw [size_sub_eq _ _ hou (by omega), Nat.mod_eq_of_lt (by omega)]
    omega
  · intro f fuel data os1 hI hlt hrf hne
    obtain ⟨hou, hub, hlen⟩ := hI
    have hdiff : (env.BUFSZ - f.buffer_used) % DWORD_MOD = env.BUFSZ - f.buffer_used :=
      Nat.mod_eq_of_lt (by omega)
    rw [hdiff] at hrf
    have hle : data.length ≤ env.BUFSZ - f.buffer_used := hR _ _ _ _ hrf
    have hpos : 0 < data.length := List.length_pos.mpr hne
    have hadd : size_add f.buffer_used data.length = f.buffer_used + data.length :=
      size_add_eq _ _ (by omega)
    have hz : ¬ (data.length = 0) := by omega
    refine ⟨by omega, by omega, ?_, ?_⟩
    · rw [store_length _ _ _ (by omega)]; exact hlen
    · simp only [precache_loop, hlt, if_true, hdiff, Handle.read, hrf, hz, if_false]
  · intro f fuel hI hfuel
    obtain ⟨r, g, hg, _⟩ := precache_loop_spec env hB hR fuel f hI.2.1 hI.2.2 hfuel
    exact ⟨r, g, hg, precache_loop_more_fuel env fuel f (r, g) hg⟩

/-- Witness for C10 on the example environment. -/
theorem buffer_invariant_witness :
    Inv exampleEnv (istream_open_handle exampleEnv [1, 2, 3]) ∧
    (∃ r g, precache exampleEnv exampleFile = some (r, g) ∧ Inv exampleEnv g) :=
  ⟨(buffer_invariant exampleEnv (by decide) (by decide) exampleEnv_bounded).1 [1, 2, 3],
   (buffer_invariant exampleEnv (by decide) (by decide) exampleEnv_bounded).2.1
     exampleFile exampleFile_inv⟩

theorem window_advance {σ : Type} (f : file_istream_t σ) (m : Nat) :
    window { f with buffer_offset := f.buffer_offset + m } = (window f).drop m := by
  unfold window
  simp only
  rw [List.drop_take, List.drop_drop]
  congr 1
  omega

theorem view_of_get_tail {σ : Type} (env : Env σ) (hB : env.BUFSZ < DWORD_MOD)
    (g : file_istream_t σ) (hI : Inv env g) (res : GetResult) (hres : res = get_tail g)
    (o n : Nat) (ho : res.out = some o) (hn : res.size = some n) :
    view_bytes g o n = window g ∧ n = g.buffer_used - g.buffer_offset := by
  rw [hres, get_tail_inv env hB g hI] at ho hn
  simp only [Option.some.injEq] at ho hn
  subst ho
  subst hn
  exact ⟨rfl, rfl⟩

theorem get_consistent {σ : Type} (env : Env σ) (hB : env.BUFSZ < DWORD_MOD)
    (hE : Env.SQFS_ERROR_IO env ≠ 0) (hR : ReadBounded env) (f : file_istream_t σ)
    (hI : Inv env f) (c : List sqfs_u8) (hc : Consistent f c) (want : Nat) (res : GetResult)
    (g : file_istream_t σ) (hget : file_get_buffered_data env f want = some (res, g)) :
    Inv env g ∧ Consistent g c := by
  obtain ⟨res1, g1, hget1, hgI, new, hlog, hwin, _⟩ := get_spec env hB hR hE f hI want
  rw [hget] at hget1
  simp only [Option.some.injEq, Prod.mk.injEq] at hget1
  obtain ⟨_, rfl⟩ := hget1
  refine ⟨hgI, ?_⟩
  unfold Consistent at hc ⊢
  rw [hwin, hlog, delivered_append, ← hc, List.append_assoc]

theorem advance_consistent {σ : Type} (env : Env σ) (hB : env.BUFSZ < DWORD_MOD)
    (f : file_istream_t σ) (hI : Inv env f) (c : List sqfs_u8) (hc : Consistent f c)
    (m : Nat) (g : file_istream_t σ) (hadv : file_advance_buffer f m = Except.ok g) :
    Inv env g ∧ Consistent g (c ++ (window f).take m) := by
  have h2 := two_dword_le_size
  obtain ⟨hm, rfl⟩ := (advance_ok_iff env (by omega) f hI m g).mp hadv
  obtain ⟨hou, hub, hlen⟩ := hI
  refine ⟨⟨by simp only; omega, hub, hlen⟩, ?_⟩
  unfold Consistent at hc ⊢
  rw [window_advance, List.append_assoc, List.take_append_drop]
  exact hc

theorem run_client_consistent {σ : Type} (env : Env σ) (hB : env.BUFSZ < DWORD_MOD)
    (hE : Env.SQFS_ERROR_IO env ≠ 0) (hR : ReadBounded env) :
    ∀ (ops : List Op) (f : file_istream_t σ) (c : List sqfs_u8) (g : file_istream_t σ)
      (c1 : List sqfs_u8), Inv env f → Consistent f c →
      run_client env ops f c = some (g, c1) → Consistent g c1 := by
  intro ops
  induction ops with
  | nil =>
    intro f c g c1 _ hc hrun
    simp only [run_client, Option.some.injEq, Prod.mk.injEq] at hrun
    rw [← hrun.1, ← hrun.2]
    exact hc
  | cons op ops ih =>
    intro f c g c1 hI hc hrun
    cases op with
    | get want =>
      simp only [run_client] at hrun
      rcases hget : file_get_buffered_data env f want with _ | ⟨res, f1⟩
      · rw [hget] at hrun
        cases hrun
      · rw [hget] at hrun
        obtain ⟨hI1, hc1⟩ := get_consistent env hB hE hR f hI c hc want res f1 hget
        exact ih f1 c g c1 hI1 hc1 hrun
    | advance m =>
      simp only [run_client] at hrun
      rcases hadv : file_advance_buffer f m with e | f1
      · rw [hadv] at hrun
        cases hrun
      · rw [hadv] at hrun
        obtain ⟨hI1, hc1⟩ := advance_consistent env hB f hI c hc m f1 hadv
        exact ih f1 _ g c1 hI1 hc1 hrun

/-- C3: after `file_get_buffered_data` returned a view `v` of length `n`, an
advance by `m <= n` is accepted, and the next `file_get_buffered_data` (any
`want`) returns; when it succeeds its view is `v[m..n)` followed by exactly the
bytes `ReadFile` delivered during that call, in call order. For every sequence
of get and advance calls on a freshly opened stream, the bytes consumed so far
followed by the current window are exactly the bytes `ReadFile` has delivered,
so the consumed bytes are a prefix of the delivered ones. -/
theorem advance_keeps_unconsumed_bytes {σ : Type} (env : Env σ)
    (hB : env.BUFSZ < DWORD_MOD) (hE : Env.SQFS_ERROR_IO env ≠ 0) (hR : ReadBounded env) :
    (∀ (f0 f1 : file_istream_t σ) (want0 : Nat) (res1 : GetResult) (o1 n m : Nat),
      Inv env f0 → file_get_buffered_data env f0 want0 = some (res1, f1) →
      res1.out = some o1 → res1.size = some n → m ≤ n →
      ∃ f2, file_advance_buffer f1 m = Except.ok f2 ∧
        ∀ want : Nat, ∃ res3 f3 new,
          file_get_buffered_data env f2 want = some (res3, f3) ∧
          f3.hnd.log = f2.hnd.log ++ new ∧
          ∀ o3 n3, res3.out = some o3 → res3.size = some n3 →
            view_bytes f3 o3 n3 = (view_bytes f1 o1 n).drop m ++ delivered new) ∧
    (∀ (ops : List Op) (os : σ) (g : file_istream_t σ) (consumed : List sqfs_u8),
      run_client env ops (istream_open_handle env os) [] = some (g, consumed) →
      consumed ++ window g = delivered g.hnd.log ∧ consumed <+: delivered g.hnd.log) := by
  constructor
  · intro f0 f1 want0 res1 o1 n m hI0 hget1 ho1 hn1 hm
    obtain ⟨r, g, hget, hI1, _, _, _, hcase⟩ := get_spec env hB hR hE f0 hI0 want0
    rw [hget1] at hget
    simp only [Option.some.injEq, Prod.mk.injEq] at hget
    obtain ⟨rfl, rfl⟩ := hget
    have hres1 : res1 = get_tail f1 := by
      rcases hcase with ⟨h, _⟩ | ⟨h, _⟩
      · exact h
      · rw [h] at ho1; cases ho1
    obtain ⟨hv1, hn⟩ := view_of_get_tail env hB f1 hI1 res1 hres1 o1 n ho1 hn1
    have h2 := two_dword_le_size
    have hadv : file_advance_buffer f1 m =
        Except.ok { f1 with buffer_offset := f1.buffer_offset + m } :=
      (advance_ok_iff env (by omega) f1 hI1 m _).mpr ⟨by omega, rfl⟩
    refine ⟨_, hadv, ?_⟩
    intro want
    have hI2 : Inv env { f1 with buffer_offset := f1.buffer_offset + m } :=
      ⟨by simp only; have := hI1.1; omega, hI1.2.1, hI1.2.2⟩
    obtain ⟨res3, f3, hget3, hI3, new, hlog, hwin, hcase3⟩ :=
      get_spec env hB hR hE _ hI2 want
    refine ⟨res3, f3, new, hget3, hlog, ?_⟩
    intro o3 n3 ho3 hn3
    have hres3 : res3 = get_tail f3 := by
      rcases hcase3 with ⟨h, _⟩ | ⟨h, _⟩
      · exact h
      · rw [h] at ho3; cases ho3
    obtain ⟨hv3, _⟩ := view_of_get_tail env hB f3 hI3 res3 hres3 o3 n3 ho3 hn3
    rw [hv3, hwin, window_advance, hv1]
  · intro ops os g consumed hrun
    have hI : Inv env (istream_open_handle env os) := by
      refine ⟨le_refl _, Nat.zero_le _, ?_⟩
      simp [istream_open_handle]
    have hc : Consistent (istream_open_handle env os) [] := by
      simp [Consistent, istream_open_handle, window, delivered]
    have h := run_client_consistent env hB hE hR ops _ [] g consumed hI hc hrun
    exact ⟨h, ⟨window g, h⟩⟩

/-- Witness for C3: on the example stream (window `[7, 8]`, three bytes wanted)
the call returns the view `[7, 8, 9, 10]`; after an advance by one byte the next
view starts with `[8, 9, 10]`. -/
theorem advance_keeps_unconsumed_bytes_witness :
    ∃ f2, file_advance_buffer exampleFileAfterGet 1 = Except.ok f2 ∧
      ∀ want : Nat, ∃ res3 f3 new,
        file_get_buffered_data exampleEnv f2 want = some (res3, f3) ∧
        f3.hnd.log = f2.hnd.log ++ new ∧
        ∀ o3 n3, res3.out = some o3 → res3.size = some n3 →
          view_bytes f3 o3 n3 = (view_bytes exampleFileAfterGet 0 4).drop 1 ++ delivered new :=
  (advance_keeps_unconsumed_bytes exampleEnv (by decide) (by decide) exampleEnv_bounded).1
    exampleFile exampleFileAfterGet 3 { ret := 0, out := some 0, size := some 4 } 0 4 1
    exampleFile_inv rfl rfl rfl (by decide)

end IStream

namespace FsTree

theorem scan_entry_ok {φ ν : Type}
    (add : φ → sqfs_dir_entry_t → Option String → Option ν × φ) (e : ScriptEntry)
    (rest : List DirStep) (cur : Int × Option String) (calls : List DirCall) (fuel : Nat)
    (fs : φ) (err : List Diagnostic) (hl : e.link_ok = true)
    (ha : (add fs e.ent e.extra).1.isSome = true) :
    fstree_from_dir add scriptIterator (fuel + 1) fs
        { pending := DirStep.entry e :: rest, current := cur, calls := calls } err =
      fstree_from_dir add scriptIterator fuel (add fs e.ent e.extra).2
        { pending := rest, current := (e.link_ret, e.link), calls := calls ++ e.calls } err := by
  rcases hadd : add fs e.ent e.extra with ⟨n, fs1⟩
  rw [hadd] at ha
  cases n with
  | none => cases ha
  | some n =>
    by_cases hs : S_ISLNK e.ent.mode = true
    · have hz : e.link_ret = 0 := by
        simpa [ScriptEntry.link_ok, hs] using hl
      simp only [ScriptEntry.extra, hs, if_true] at hadd
      simp [fstree_from_dir, scriptIterator, ScriptDir.next, ScriptDir.read_link, hs, hz, hadd,
        ScriptEntry.calls]
    · simp only [ScriptEntry.extra, hs, Bool.false_eq_true, if_false] at hadd
      simp [fstree_from_dir, scriptIterator, ScriptDir.next, hs, hadd, ScriptEntry.calls]

theorem scan_fail_next {φ ν : Type}
    (add : φ → sqfs_dir_entry_t → Option String → Option ν × φ) (r : Int) (hr : r < 0)
    (rest : List DirStep) (cur : Int × Option String) (calls : List DirCall) (fuel : Nat)
    (fs : φ) (err : List Diagnostic) :
    fstree_from_dir add scriptIterator (fuel + 1) fs
        { pending := DirStep.code r :: rest, current := cur, calls := calls } err =
      some { ret := -1, fs := fs,
             dir := { pending := rest, current := cur, calls := calls ++ [DirCall.next] },
             stderr := err ++ [sqfs_perror "readdir" none r] } := by
  have h0 : r ≠ 0 := by omega
  have h1 : ¬ (0 < r) := by omega
  simp only [fstree_from_dir, scriptIterator, ScriptDir.next, h0, h1, hr, dite_true, dite_false,
    ne_eq, not_false_eq_true]

theorem scan_fail_link {φ ν : Type}
    (add : φ → sqfs_dir_entry_t → Option String → Option ν × φ) (e : ScriptEntry)
    (hs : S_ISLNK e.ent.mode = true) (hr : e.link_ret ≠ 0)
    (rest : List DirStep) (cur : Int × Option String) (calls : List DirCall) (fuel : Nat)
    (fs : φ) (err : List Diagnostic) :
    fstree_from_dir add scriptIterator (fuel + 1) fs
        { pending := DirStep.entry e :: rest, current := cur, calls := calls } err =
      some { ret := -1, fs := fs,
             dir := { pending := rest, current := (e.link_ret, e.link),
                      calls := calls ++ [DirCall.next, DirCall.read_link] },
             stderr := err ++ [sqfs_perror "readlink" (some e.ent.name) e.link_ret] } := by
  simp [fstree_from_dir, scriptIterator, ScriptDir.next, ScriptDir.read_link, hs, hr]

theorem scan_fail_add {φ ν : Type}
    (add : φ → sqfs_dir_entry_t → Option String → Option ν × φ) (e : ScriptEntry)
    (rest : List DirStep) (cur : Int × Option String) (calls : List DirCall) (fuel : Nat)
    (fs : φ) (err : List Diagnostic) (hl : e.link_ok = true)
    (ha : (add fs e.ent e.extra).1 = none) :
    fstree_from_dir add scriptIterator (fuel + 1) fs
        { pending := DirStep.entry e :: rest, current := cur, calls := calls } err =
      some { ret := -1, fs := (add fs e.ent e.extra).2,
             dir := { pending := rest, current := (e.link_ret, e.link),
                      calls := calls ++ e.calls },
             stderr := err ++ [perror "creating tree node"] } := by
  rcases hadd : add fs e.ent e.extra with ⟨n, fs1⟩
  rw [hadd] at ha
  simp only at ha
  subst ha
  by_cases hs : S_ISLNK e.ent.mode = true
  · have hz : e.link_ret = 0 := by
      simpa [ScriptEntry.link_ok, hs] using hl
    simp only [ScriptEntry.extra, hs, if_true] at hadd
    simp [fstree_from_dir, scriptIterator, ScriptDir.next, ScriptDir.read_link, hs, hz, hadd,
      ScriptEntry.calls]
  · simp only [ScriptEntry.extra, hs, Bool.false_eq_true, if_false] at hadd
    simp [fstree_from_dir, scriptIterator, ScriptDir.next, hs, hadd, ScriptEntry.calls]

theorem scan_end {φ ν : Type}
    (add : φ → sqfs_dir_entry_t → Option String → Option ν × φ)
    (tail : List DirStep) (hend : ends_directory tail = true)
    (cur : Int × Option String) (calls : List DirCall) (fuel : Nat)
    (fs : φ) (err : List Diagnostic) :
    fstree_from_dir add scriptIterator (fuel + 1) fs
        { pending := tail, current := cur, calls := calls } err =
      some { ret := 0, fs := fs,
             dir := { pending := tail.tail, current := cur, calls := calls ++ [DirCall.next] },
             stderr := err } := by
  cases tail with
  | nil => simp [fstree_from_dir, scriptIterator, ScriptDir.next]
  | cons s rest =>
    cases s with
    | entry e => simp [ends_directory] at hend
    | code r =>
      have hr : 0 ≤ r := by simpa [ends_directory] using hend
      by_cases h0 : r = 0
      · simp [fstree_from_dir, scriptIterator, ScriptDir.next, h0]
      · have h1 : 0 < r := by omega
        simp [fstree_from_dir, scriptIterator, ScriptDir.next, h0, h1]

theorem scan_prefix {φ ν : Type}
    (add : φ → sqfs_dir_entry_t → Option String → Option ν × φ) :
    ∀ (pre : List ScriptEntry) (fs : φ) (rest : List DirStep) (cur : Int × Option String)
      (calls : List DirCall) (fuel : Nat) (err : List Diagnostic),
      all_succeed add fs pre = true →
      ∃ cur1,
        fstree_from_dir add scriptIterator (pre.length + fuel) fs
          { pending := pre.map DirStep.entry ++ rest, current := cur, calls := calls } err =
        fstree_from_dir add scriptIterator fuel (fold_entries add fs pre)
          { pending := rest, current := cur1,
            calls := calls ++ (pre.map ScriptEntry.calls).flatten } err := by
  intro pre
  induction pre with
  | nil =>
    intro fs rest cur calls fuel err _
    exact ⟨cur, by simp [fold_entries]⟩
  | cons e pre ih =>
    intro fs rest cur calls fuel err hall
    simp only [all_succeed, Bool.and_eq_true] at hall
    obtain ⟨⟨hl, ha⟩, hrest⟩ := hall
    obtain ⟨cur1, h1⟩ := ih (add fs e.ent e.extra).2 rest (e.link_ret, e.link)
      (calls ++ e.calls) fuel err hrest
    refine ⟨cur1, ?_⟩
    have hlen : (e :: pre).length + fuel = (pre.length + fuel) + 1 := by
      simp only [List.length_cons]; omega
    rw [hlen]
    simp only [List.map_cons, List.cons_append]
    rw [scan_entry_ok add e _ cur calls _ fs err hl ha, h1]
    simp [fold_entries, List.append_assoc]

theorem scan_first_failure {φ ν : Type}
    (add : φ → sqfs_dir_entry_t → Option String → Option ν × φ) :
    ∀ (es : List ScriptEntry) (fs : φ) (tail : List DirStep) (cur : Int × Option String)
      (calls : List DirCall) (fuel : Nat) (err : List Diagnostic),
      all_succeed add fs es = false →
      ∃ res,
        fstree_from_dir add scriptIterator (es.length + (fuel + 1)) fs
          { pending := es.map DirStep.entry ++ tail, current := cur, calls := calls } err =
          some res ∧ res.ret = -1 := by
  intro es
  induction es with
  | nil =>
    intro fs tail cur calls fuel err hall
    simp [all_succeed] at hall
  | cons e es ih =>
    intro fs tail cur calls fuel err hall
    have hlen : (e :: es).length + (fuel + 1) = (es.length + (fuel + 1)) + 1 := by
      simp only [List.length_cons]; omega
    rw [hlen]
    simp only [List.map_cons, List.cons_append]
    by_cases hl : e.link_ok = true
    · by_cases ha : (add fs e.ent e.extra).1.isSome = true
      · have hrest : all_succeed add (add fs e.ent e.extra).2 es = false := by
          simpa [all_succeed, hl, ha] using hall
        rw [scan_entry_ok add e _ cur calls _ fs err hl ha]
        exact ih _ tail _ _ fuel err hrest
      · have hnone : (add fs e.ent e.extra).1 = none := by
          simpa using ha
        rw [scan_fail_add add e _ cur calls _ fs err hl hnone]
        exact ⟨_, rfl, rfl⟩
    · have hs : S_ISLNK e.ent.mode = true ∧ e.link_ret ≠ 0 := by
        simpa [ScriptEntry.link_ok] using hl
      rw [scan_fail_link add e hs.1 hs.2 _ cur calls _ fs err]
      exact ⟨_, rfl, rfl⟩

/-- C6: on a directory that hands out the entries `pre`, all of which are added,
and then fails in one of the three ways, `fstree_from_dir` returns -1 at once:
the answers `rest` of the iterator after the failing one are never asked for (no
further call of `next`), and the tree is the fold of `fstree_add_generic` over
`pre` (for a failing `next` or `read_link`) or what the failing
`fstree_add_generic` call left of it. -/
theorem scan_aborts_at_first_failure {φ ν : Type}
    (add : φ → sqfs_dir_entry_t → Option String → Option ν × φ) (fs : φ)
    (pre : List ScriptEntry) (rest : List DirStep) (fuel : Nat) (err : List Diagnostic)
    (hpre : all_succeed add fs pre = true) :
    (∀ r : Int, r < 0 →
      ∃ res, fstree_from_dir add scriptIterator (pre.length + (fuel + 1)) fs
          (ScriptDir.start (pre.map DirStep.entry ++ DirStep.code r :: rest)) err = some res ∧
        res.ret = -1 ∧ res.dir.pending = rest ∧
        res.dir.calls = (pre.map ScriptEntry.calls).flatten ++ [DirCall.next] ∧
        res.fs = fold_entries add fs pre) ∧
    (∀ e : ScriptEntry, S_ISLNK e.ent.mode = true → e.link_ret ≠ 0 →
      ∃ res, fstree_from_dir add scriptIterator (pre.length + (fuel + 1)) fs
          (ScriptDir.start (pre.map DirStep.entry ++ DirStep.entry e :: rest)) err = some res ∧
        res.ret = -1 ∧ res.dir.pending = rest ∧
        res.dir.calls =
          (pre.map ScriptEntry.calls).flatten ++ [DirCall.next, DirCall.read_link] ∧
        res.fs = fold_entries add fs pre) ∧
    (∀ e : ScriptEntry, e.link_ok = true →
      (add (fold_entries add fs pre) e.ent e.extra).1 = none →
      ∃ res, fstree_from_dir add scriptIterator (pre.length + (fuel + 1)) fs
          (ScriptDir.start (pre.map DirStep.entry ++ DirStep.entry e :: rest)) err = some res ∧
        res.ret = -1 ∧ res.dir.pending = rest ∧
        res.dir.calls = (pre.map ScriptEntry.calls).flatten ++ e.calls ∧
        res.fs = (add (fold_entries add fs pre) e.ent e.extra).2) := by
  refine ⟨?_, ?_, ?_⟩
  · intro r hr
    obtain ⟨cur1, h⟩ := scan_prefix add pre fs (DirStep.code r :: rest) (0, none) []
      (fuel + 1) err hpre
    unfold ScriptDir.start
    rw [h, scan_fail_next add r hr]
    exact ⟨_, rfl, rfl, rfl, by simp, rfl⟩
  · intro e hs hr
    obtain ⟨cur1, h⟩ := scan_prefix add pre fs (DirStep.entry e :: rest) (0, none) []
      (fuel + 1) err hpre
    unfold ScriptDir.start
    rw [h, scan_fail_link add e hs hr]
    exact ⟨_, rfl, rfl, rfl, by simp, rfl⟩
  · intro e hl ha
    obtain ⟨cur1, h⟩ := scan_prefix add pre fs (DirStep.entry e :: rest) (0, none) []
      (fuel + 1) err hpre
    unfold ScriptDir.start
    rw [h, scan_fail_add add e _ _ _ _ _ err hl ha]
    exact ⟨_, rfl, rfl, rfl, by simp, rfl⟩

/-- Witness for C6: after the regular file `a` the iterator fails with -3; the
entry `z` scripted after the failure is never asked for. -/
theorem scan_aborts_at_first_failure_witness :
    ∃ res, fstree_from_dir listAdd scriptIterator 2 []
        (ScriptDir.start [DirStep.entry (regularEntry "a"), DirStep.code (-3),
          DirStep.entry (regularEntry "z")]) [] = some res ∧
      res.ret = -1 ∧ res.dir.pending = [DirStep.entry (regularEntry "z")] ∧
      res.dir.calls =
        ([regularEntry "a"].map ScriptEntry.calls).flatten ++ [DirCall.next] ∧
      res.fs = fold_entries listAdd [] [regularEntry "a"] :=
  (scan_aborts_at_first_failure listAdd [] [regularEntry "a"]
    [DirStep.entry (regularEntry "z")] 0 [] (by decide)).1 (-3) (by decide)

/-- C7, as stated, fails: the regular file `a` is added, then reading the link
of `b` fails; `fstree_from_dir` returns -1 and the tree still holds `a`, so it
is not the (empty) tree from before the call. -/
theorem link_failure_leaves_partial_tree :
    ∃ res, fstree_from_dir listAdd scriptIterator 2 []
        (ScriptDir.start [DirStep.entry (regularEntry "a"),
          DirStep.entry (symlinkEntry "b" (-5) none)]) [] = some res ∧
      res.ret = -1 ∧ res.fs = [("a", none)] ∧ res.fs ≠ [] :=
  ⟨_, rfl, rfl, rfl, by decide⟩

/-- C7, amended: when `read_link` fails for a symbolic link that follows the
entries `pre` (all added), `fstree_from_dir` returns -1 and the tree is the
fold of `fstree_add_generic` over `pre`: the nodes of the earlier entries stay,
nothing is added for the failing entry or a later one, and the tree is the one
from before the call when the failing entry is the first. -/
theorem link_failure_keeps_earlier_nodes {φ ν : Type}
    (add : φ → sqfs_dir_entry_t → Option String → Option ν × φ) (fs : φ)
    (pre : List ScriptEntry) (e : ScriptEntry) (rest : List DirStep) (fuel : Nat)
    (err : List Diagnostic) (hpre : all_succeed add fs pre = true)
    (hs : S_ISLNK e.ent.mode = true) (hr : e.link_ret ≠ 0) :
    ∃ res, fstree_from_dir add scriptIterator (pre.length + (fuel + 1)) fs
        (ScriptDir.start (pre.map DirStep.entry ++ DirStep.entry e :: rest)) err = some res ∧
      res.ret = -1 ∧ res.fs = fold_entries add fs pre ∧ (pre = [] → res.fs = fs) := by
  obtain ⟨cur1, h⟩ := scan_prefix add pre fs (DirStep.entry e :: rest) (0, none) []
    (fuel + 1) err hpre
  unfold ScriptDir.start
  rw [h, scan_fail_link add e hs hr]
  refine ⟨_, rfl, rfl, rfl, ?_⟩
  intro hnil
  rw [hnil]
  rfl

/-- Witness for the amended C7: `a` is added, the link of `b` cannot be read. -/
theorem link_failure_keeps_earlier_nodes_witness :
    ∃ res, fstree_from_dir listAdd scriptIterator 2 []
        (ScriptDir.start ([regularEntry "a"].map DirStep.entry ++
          DirStep.entry (symlinkEntry "b" (-5) none) :: [])) [] = some res ∧
      res.ret = -1 ∧ res.fs = fold_entries listAdd [] [regularEntry "a"] ∧
      ([regularEntry "a"] = [] → res.fs = []) :=
  link_failure_keeps_earlier_nodes listAdd [] [regularEntry "a"] (symlinkEntry "b" (-5) none)
    [] 0 [] (by decide) (by decide) (by decide)

/-- C8, as stated, fails: when `next` fails after the entry `a`, the only
diagnostic is `readdir` with the error code and no path; when adding a second
entry `a` fails, the only diagnostic is `creating tree node`, which does not
name `a`. -/
theorem failure_diagnostic_without_path :
    (∃ res, fstree_from_dir listAdd scriptIterator 2 []
        (ScriptDir.start [DirStep.entry (regularEntry "a"), DirStep.code (-3)]) [] = some res ∧
      res.ret = -1 ∧ res.stderr = [sqfs_perror "readdir" none (-3)] ∧
      ∀ d ∈ res.stderr, d.path = none) ∧
    (∃ res, fstree_from_dir listAdd scriptIterator 2 []
        (ScriptDir.start [DirStep.entry (regularEntry "a"),
          DirStep.entry (regularEntry "a")]) [] = some res ∧
      res.ret = -1 ∧ res.stderr = [perror "creating tree node"] ∧
      ∀ d ∈ res.stderr, d.path ≠ some "a") :=
  ⟨⟨_, rfl, rfl, rfl, by decide⟩, ⟨_, rfl, rfl, rfl, by decide⟩⟩

/-- C8, amended: every failure adds exactly one diagnostic to stderr before
`fstree_from_dir` returns -1. For a failing `read_link` it is
`sqfs_perror("readlink", ent->name, ret)`, which names the entry and carries the
error code; for a failing `next` it is `sqfs_perror("readdir", NULL, ret)`, which
carries the error code and no path. -/
theorem failure_diagnostics {φ ν : Type}
    (add : φ → sqfs_dir_entry_t → Option String → Option ν × φ) (fs : φ)
    (pre : List ScriptEntry) (rest : List DirStep) (fuel : Nat) (err : List Diagnostic)
    (hpre : all_succeed add fs pre = true) :
    (∀ e : ScriptEntry, S_ISLNK e.ent.mode = true → e.link_ret ≠ 0 →
      ∃ res d, fstree_from_dir add scriptIterator (pre.length + (fuel + 1)) fs
          (ScriptDir.start (pre.map DirStep.entry ++ DirStep.entry e :: rest)) err = some res ∧
        res.ret = -1 ∧ res.stderr = err ++ [d] ∧
        d = sqfs_perror "readlink" (some e.ent.name) e.link_ret ∧
        d.path = some e.ent.name ∧ d.error_code = some e.link_ret) ∧
    (∀ r : Int, r < 0 →
      ∃ res d, fstree_from_dir add scriptIterator (pre.length + (fuel + 1)) fs
          (ScriptDir.start (pre.map DirStep.entry ++ DirStep.code r :: rest)) err = some res ∧
        res.ret = -1 ∧ res.stderr = err ++ [d] ∧
        d = sqfs_perror "readdir" none r ∧ d.path = none ∧ d.error_code = some r) ∧
    (∀ e : ScriptEntry, e.link_ok = true →
      (add (fold_entries add fs pre) e.ent e.extra).1 = none →
      ∃ res d, fstree_from_dir add scriptIterator (pre.length + (fuel + 1)) fs
          (ScriptDir.start (pre.map DirStep.entry ++ DirStep.entry e :: rest)) err = some res ∧
        res.ret = -1 ∧ res.stderr = err ++ [d]) := by
  refine ⟨?_, ?_, ?_⟩
  · intro e hs hr
    obtain ⟨cur1, h⟩ := scan_prefix add pre fs (DirStep.entry e :: rest) (0, none) []
      (fuel + 1) err hpre
    unfold ScriptDir.start
    rw [h, scan_fail_link add e hs hr]
    exact ⟨_, _, rfl, rfl, rfl, rfl, rfl, rfl⟩
  · intro r hr
    obtain ⟨cur1, h⟩ := scan_prefix add pre fs (DirStep.code r :: rest) (0, none) []
      (fuel + 1) err hpre
    unfold ScriptDir.start
    rw [h, scan_fail_next add r hr]
    exact ⟨_, _, rfl, rfl, rfl, rfl, rfl, rfl⟩
  · intro e hl ha
    obtain ⟨cur1, h⟩ := scan_prefix add pre fs (DirStep.entry e :: rest) (0, none) []
      (fuel + 1) err hpre
    unfold ScriptDir.start
    rw [h, scan_fail_add add e _ _ _ _ _ err hl ha]
    exact ⟨_, _, rfl, rfl, rfl⟩

/-- Witness for the amended C8: the link of `b` cannot be read after `a` was
added. -/
theorem failure_diagnostics_witness :
    ∃ res d, fstree_from_dir listAdd scriptIterator 2 []
        (ScriptDir.start ([regularEntry "a"].map DirStep.entry ++
          DirStep.entry (symlinkEntry "b" (-5) none) :: [])) [] = some res ∧
      res.ret = -1 ∧ res.stderr = [] ++ [d] ∧
      d = sqfs_perror "readlink" (some (symlinkEntry "b" (-5) none).ent.name)
            (symlinkEntry "b" (-5) none).link_ret ∧
      d.path = some (symlinkEntry "b" (-5) none).ent.name ∧
      d.error_code = some (symlinkEntry "b" (-5) none).link_ret :=
  (failure_diagnostics listAdd [] [regularEntry "a"] [] 0 [] (by decide)).1
    (symlinkEntry "b" (-5) none) (by decide) (by decide)

/-- C9: on a directory that hands out the entries `es` and then reports end of
directory, `fstree_from_dir` returns, and it returns 0 exactly when every
`read_link` and every `fstree_add_generic` call succeeds (otherwise it returns
-1). When it returns 0 the tree is the fold of `fstree_add_generic` over `es`,
once each in order, with the link target as `extra` exactly for the symbolic
links and `NULL` otherwise; `read_link` was called exactly for the symbolic
links, and nothing was written to stderr. -/
theorem scan_returns_zero_iff_all_succeed {φ ν : Type}
    (add : φ → sqfs_dir_entry_t → Option String → Option ν × φ) (fs : φ)
    (es : List ScriptEntry) (tail : List DirStep) (fuel : Nat) (err : List Diagnostic)
    (hend : ends_directory tail = true) :
    ∃ res, fstree_from_dir add scriptIterator (es.length + (fuel + 1)) fs
        (ScriptDir.start (es.map DirStep.entry ++ tail)) err = some res ∧
      (res.ret = 0 ↔ all_succeed add fs es = true) ∧
      (res.ret ≠ 0 → res.ret = -1) ∧
      (res.ret = 0 →
        res.fs = fold_entries add fs es ∧
        res.dir.calls = (es.map ScriptEntry.calls).flatten ++ [DirCall.next] ∧
        res.stderr = err) := by
  by_cases hall : all_succeed add fs es = true
  · obtain ⟨cur1, h⟩ := scan_prefix add es fs tail (0, none) [] (fuel + 1) err hall
    unfold ScriptDir.start
    rw [h, scan_end add tail hend]
    refine ⟨_, rfl, ?_, ?_, ?_⟩
    · simp only [hall]
    · intro hne; exact absurd rfl hne
    · intro _; exact ⟨rfl, by simp, rfl⟩
  · have hfalse : all_succeed add fs es = false := by simpa using hall
    obtain ⟨res, hres, hret⟩ := scan_first_failure add es fs tail (0, none) [] fuel err hfalse
    unfold ScriptDir.start
    refine ⟨res, hres, ?_, ?_, ?_⟩
    · rw [hret, hfalse]
      constructor
      · intro h; exact absurd h (by decide)
      · intro h; cases h
    · intro _; exact hret
    · intro h0
      rw [hret] at h0
      exact absurd h0 (by decide)

/-- Witness for C9: a regular file and a symbolic link, then end of directory. -/
theorem scan_returns_zero_iff_all_succeed_witness :
    ∃ res, fstree_from_dir listAdd scriptIterator 3 []
        (ScriptDir.start ([regularEntry "a", symlinkEntry "b" 0 (some "a")].map DirStep.entry
          ++ [])) [] = some res ∧
      (res.ret = 0 ↔
        all_succeed listAdd [] [regularEntry "a", symlinkEntry "b" 0 (some "a")] = true) ∧
      (res.ret ≠ 0 → res.ret = -1) ∧
      (res.ret = 0 →
        res.fs = fold_entries listAdd [] [regularEntry "a", symlinkEntry "b" 0 (some "a")] ∧
        res.dir.calls =
          ([regularEntry "a", symlinkEntry "b" 0 (some "a")].map ScriptEntry.calls).flatten ++
            [DirCall.next] ∧
        res.stderr = []) :=
  scan_returns_zero_iff_all_succeed listAdd [] [regularEntry "a", symlinkEntry "b" 0 (some "a")]
    [] 0 [] (by decide)

end FsTree
